import Mathlib

/-!
Verification development for the download/resumable-transfer coordinator of
the `qayeq` browser shell.

The definitions below are a shallow embedding of the Rust sources:

* `src/download/mod.rs` — the thread-local transfer registry
  (`GlobalDownloadManager`, `DownloadItem`, `DownloadStatus`, the registry
  operations `add_download`, `update_progress`, `set_download_status`,
  `set_supports_resume`, `clear_completed`, `remove_download`,
  `cancel_download`, `pause_download`, `resume_download`, the query helpers
  `is_paused`, `is_active`, `get_download_for_resume`, and the per-item
  helpers `DownloadItem.progress`, `DownloadItem.is_active`,
  `DownloadItem.is_paused`, `DownloadItem.can_resume`).
* `src/profile/manager.rs` — the native-backend event handlers installed by
  `setup_download_handler` (`connect_finished`, `connect_failed`, the cancel
  callback that backs up the partial file), the range-resume adapter
  `resume_download_with_range`, and the collision resolver `unique_filename`.

Modelling conventions:

* Machine integers (`u64`, `usize`) become `Nat`; none of the modelled code
  relies on wrap-around (ids and byte counters only grow by small steps).
* The registry's `Vec<DownloadItem>` becomes `List DownloadItem` with push
  at the end; `iter_mut().find(..)` mutating the first match becomes
  `updateFirst`.
* The thread-local callback tables (`CANCEL_CALLBACKS`, `RESUME_CALLBACKS`)
  store boxed closures in Rust.  The closures actually registered by the
  code are closed and known, so they are embedded as first-order tags
  (`CancelCb`, `ResumeCb`) plus an interpreter over a `World` that carries
  the registry, the file system, the soup cancellation tokens and the
  native backend cancellation flags.
* Observer notification (`on_changed_callbacks`) carries no payload in
  Rust; the `World.log` field records every mutating registry call with
  its arguments, so ordering claims ("status set before the callback
  fires", "progress reset to 0 before streaming") become statements about
  the log.
* `glib::spawn_future_local` defers the streaming body of
  `resume_download_with_range` to a later event-loop turn; the embedding
  splits the function into `resume_sync` (runs synchronously) and
  `resume_async` (the spawned body), with the composition
  `resume_download_with_range` available for end-to-end statements.
* The HTTP response of the range request is a parameter
  (`RangeResponse`): status code, content length, the successfully read
  body chunks, and whether the read after the last chunk fails instead of
  returning EOF.  A missing response models a failed `send_future`.
* `f64` in `DownloadItem::progress` is modelled by `ℚ` (exact division);
  the claim about it concerns the division-by-zero guard, not rounding.
-/

/-- Status of a download (`DownloadStatus` in `src/download/mod.rs`). -/
inductive DownloadStatus where
  | InProgress
  | Paused
  | Completed
  | Failed (reason : String)
  | Cancelled
deriving DecidableEq, Repr

/-- Is the status one of the three terminal states of the spec? -/
def DownloadStatus.isTerminal : DownloadStatus → Bool
  | .Completed => true
  | .Failed _ => true
  | .Cancelled => true
  | _ => false

/-- One download (`DownloadItem` in `src/download/mod.rs`).  `started_at`
is a `SystemTime` in Rust, modelled as a plain tick count. -/
structure DownloadItem where
  id : Nat
  filename : String
  url : String
  destination : String
  total_bytes : Nat
  received_bytes : Nat
  status : DownloadStatus
  started_at : Nat
  supports_resume : Bool
deriving DecidableEq, Repr

/-- `DownloadItem::progress`: fraction downloaded, with the `total_bytes == 0`
guard of the source.  `f64` division is modelled exactly over `ℚ`. -/
def DownloadItem.progress (d : DownloadItem) : ℚ :=
  if d.total_bytes = 0 then 0
  else (d.received_bytes : ℚ) / (d.total_bytes : ℚ)

/-- `DownloadItem::is_active`: `matches!(self.status, InProgress)`. -/
def DownloadItem.is_active (d : DownloadItem) : Bool :=
  match d.status with
  | .InProgress => true
  | _ => false

/-- `DownloadItem::is_paused`: `matches!(self.status, Paused)`. -/
def DownloadItem.is_paused (d : DownloadItem) : Bool :=
  match d.status with
  | .Paused => true
  | _ => false

/-- `DownloadItem::can_resume`: paused and the server supports ranges. -/
def DownloadItem.can_resume (d : DownloadItem) : Bool :=
  d.is_paused && d.supports_resume

/-- The registry state (`GlobalDownloadManager`): the download list and the
next id to hand out.  The observer list is modelled by the event log of
`World` instead of by stored closures. -/
structure GlobalDownloadManager where
  downloads : List DownloadItem
  next_id : Nat
deriving DecidableEq, Repr

/-- `GlobalDownloadManager::new()`. -/
def GlobalDownloadManager.new : GlobalDownloadManager :=
  { downloads := [], next_id := 1 }

/-- Mutate the first list entry satisfying `p`, like Rust's
`iter_mut().find(p)` followed by a field assignment. -/
def updateFirst (p : DownloadItem → Bool) (f : DownloadItem → DownloadItem) :
    List DownloadItem → List DownloadItem
  | [] => []
  | d :: ds => if p d then f d :: ds else d :: updateFirst p f ds

/-- `add_download`: assign `next_id`, push a fresh `InProgress` item, return
the id.  `now` stands for `SystemTime::now()`. -/
def add_download (url filename destination : String) (now : Nat)
    (dm : GlobalDownloadManager) : GlobalDownloadManager × Nat :=
  let id := dm.next_id
  let item : DownloadItem :=
    { id := id, filename := filename, url := url, destination := destination
      total_bytes := 0, received_bytes := 0, status := .InProgress
      started_at := now, supports_resume := false }
  ({ downloads := dm.downloads ++ [item], next_id := dm.next_id + 1 }, id)

/-- `update_progress`: overwrite both byte counters of the first item with
the given id; silently do nothing when the id is unknown. -/
def update_progress (id received total : Nat) (dm : GlobalDownloadManager) :
    GlobalDownloadManager :=
  let ds := updateFirst (fun d => d.id == id)
    (fun d => { d with received_bytes := received, total_bytes := total })
    dm.downloads
  { dm with downloads := ds }

/-- `set_download_status`: overwrite the status of the first item with the
given id; silently do nothing when the id is unknown. -/
def set_download_status (id : Nat) (status : DownloadStatus)
    (dm : GlobalDownloadManager) : GlobalDownloadManager :=
  let ds := updateFirst (fun d => d.id == id)
    (fun d => { d with status := status }) dm.downloads
  { dm with downloads := ds }

/-- `set_supports_resume`: overwrite the resume-support flag of the first
item with the given id. -/
def set_supports_resume (id : Nat) (supports : Bool)
    (dm : GlobalDownloadManager) : GlobalDownloadManager :=
  let ds := updateFirst (fun d => d.id == id)
    (fun d => { d with supports_resume := supports }) dm.downloads
  { dm with downloads := ds }

/-- `recent_downloads`: the `limit` most recently added items, newest
first. -/
def recent_downloads (limit : Nat) (dm : GlobalDownloadManager) :
    List DownloadItem :=
  dm.downloads.reverse.take limit

/-- `has_active_downloads`. -/
def has_active_downloads (dm : GlobalDownloadManager) : Bool :=
  dm.downloads.any (fun d => d.is_active)

/-- `has_downloads`. -/
def has_downloads (dm : GlobalDownloadManager) : Bool :=
  !dm.downloads.isEmpty

/-- `clear_completed`: retain only the items whose `is_active` holds. -/
def clear_completed (dm : GlobalDownloadManager) : GlobalDownloadManager :=
  { dm with downloads := dm.downloads.filter (fun d => d.is_active) }

/-- The registry part of `remove_download`: drop every item with the id.
(The cancel-callback removal lives at the `World` level.) -/
def remove_download_dm (id : Nat) (dm : GlobalDownloadManager) :
    GlobalDownloadManager :=
  { dm with downloads := dm.downloads.filter (fun d => d.id != id) }

/-- `is_paused(id)`: the first item with the id is `Paused`; `false` when
the id is unknown. -/
def is_paused (dm : GlobalDownloadManager) (id : Nat) : Bool :=
  match dm.downloads.find? (fun d => d.id == id) with
  | some d => d.is_paused
  | none => false

/-- `is_active(id)`: the first item with the id is `InProgress`; `false`
when the id is unknown. -/
def is_active (dm : GlobalDownloadManager) (id : Nat) : Bool :=
  match dm.downloads.find? (fun d => d.id == id) with
  | some d => d.is_active
  | none => false

/-- `get_download_for_resume`: url, destination and received byte count of
the first item that has the id *and* is `Paused`.  Note: the resume-support
flag is not consulted here. -/
def get_download_for_resume (dm : GlobalDownloadManager) (id : Nat) :
    Option (String × String × Nat) :=
  (dm.downloads.find? (fun d => d.id == id && d.is_paused)).map
    (fun d => (d.url, d.destination, d.received_bytes))

/-- Status of the first item with the given id (observation helper). -/
def statusOf (dm : GlobalDownloadManager) (id : Nat) : Option DownloadStatus :=
  (dm.downloads.find? (fun d => d.id == id)).map (fun d => d.status)

/-- Received byte counter of the first item with the given id. -/
def receivedOf (dm : GlobalDownloadManager) (id : Nat) : Option Nat :=
  (dm.downloads.find? (fun d => d.id == id)).map (fun d => d.received_bytes)

/-- Total byte counter of the first item with the given id. -/
def totalOf (dm : GlobalDownloadManager) (id : Nat) : Option Nat :=
  (dm.downloads.find? (fun d => d.id == id)).map (fun d => d.total_bytes)

/-- Resume-support flag of the first item with the given id. -/
def supportsOf (dm : GlobalDownloadManager) (id : Nat) : Option Bool :=
  (dm.downloads.find? (fun d => d.id == id)).map (fun d => d.supports_resume)

/-- One mutating registry call, recorded in order with its arguments.
This models the sequence of mutations (and hence of observer
notifications) that the thread-local registry performs. -/
inductive RegEvent where
  | added (id : Nat)
  | progress (id received total : Nat)
  | statusSet (id : Nat) (status : DownloadStatus)
  | supportsSet (id : Nat) (supports : Bool)
  | cleared
  | removed (id : Nat)
deriving DecidableEq, Repr

/-- The cancel callbacks the code registers (`CANCEL_CALLBACKS`): the
"Save As" one (native cancel only), the auto-save one (backs the partial
file up to `.part` when pausing, then native cancel), and the one the
range-resume adapter installs (cancels the soup token, then backs up when
pausing). -/
inductive CancelCb where
  | native (dest : String)
  | nativeBackup (dest : String)
  | soup (dest : String)
deriving DecidableEq, Repr

/-- The only resume callback the code registers (`RESUME_CALLBACKS`):
look the paused transfer up and hand it to `resume_download_with_range`. -/
inductive ResumeCb where
  | rangeResume
deriving DecidableEq, Repr

/-- Whole-system state: registry, both callback tables, the file system
(path to byte content), the cooperative soup cancellation tokens that have
been cancelled, the native downloads whose engine cancel method was
invoked, the issued range requests (url, first byte), and the registry
event log. -/
structure World where
  dm : GlobalDownloadManager
  cancelCbs : List (Nat × CancelCb)
  resumeCbs : List (Nat × ResumeCb)
  files : List (String × List Nat)
  cancelledTokens : List Nat
  nativeCancelled : List Nat
  requests : List (String × Nat)
  log : List RegEvent
deriving DecidableEq, Repr

/-- Content of a file, `none` when the path does not exist. -/
def getFile (files : List (String × List Nat)) (path : String) :
    Option (List Nat) :=
  (files.find? (fun e => e.1 == path)).map (fun e => e.2)

/-- Does the path exist? -/
def fileExists (files : List (String × List Nat)) (path : String) : Bool :=
  (getFile files path).isSome

/-- Create or overwrite a file. -/
def setFile (files : List (String × List Nat)) (path : String)
    (content : List Nat) : List (String × List Nat) :=
  (path, content) :: files.filter (fun e => e.1 != path)

/-- Delete a file (no-op when absent). -/
def removeFile (files : List (String × List Nat)) (path : String) :
    List (String × List Nat) :=
  files.filter (fun e => e.1 != path)

/-- Index of the last occurrence of a character. -/
def lastIdxOf (c : Char) : List Char → Option Nat
  | [] => none
  | x :: rest =>
      match lastIdxOf c rest with
      | some i => some (i + 1)
      | none => if x = c then some 0 else none

/-- Rust's `PathBuf::with_extension("part")`: replace the extension of the
last path component (the part after its last dot), or append `.part` when
it has none.  (The Rust special case of a leading-dot file name is not
modelled; no modelled path uses one.) -/
def withPartExtension (path : String) : String :=
  let cs := path.toList
  let nameStart := match lastIdxOf '/' cs with
    | some i => i + 1
    | none => 0
  let pre := cs.take nameStart
  let name := cs.drop nameStart
  match lastIdxOf '.' name with
  | some i => ⟨pre ++ name.take i ++ ".part".toList⟩
  | none => ⟨pre ++ name ++ ".part".toList⟩

/-- Registry wrapper: `update_progress` plus its log entry. -/
def World.regUpdateProgress (w : World) (id received total : Nat) : World :=
  let dm := update_progress id received total w.dm
  let lg := w.log ++ [RegEvent.progress id received total]
  { w with dm := dm, log := lg }

/-- Registry wrapper: `set_download_status` plus its log entry. -/
def World.regSetStatus (w : World) (id : Nat) (st : DownloadStatus) : World :=
  let dm := set_download_status id st w.dm
  let lg := w.log ++ [RegEvent.statusSet id st]
  { w with dm := dm, log := lg }

/-- Registry wrapper: `set_supports_resume` plus its log entry. -/
def World.regSetSupports (w : World) (id : Nat) (supports : Bool) : World :=
  let dm := set_supports_resume id supports w.dm
  let lg := w.log ++ [RegEvent.supportsSet id supports]
  { w with dm := dm, log := lg }

/-- Registry wrapper: `clear_completed` plus its log entry. -/
def World.regClear (w : World) : World :=
  let dm := clear_completed w.dm
  let lg := w.log ++ [RegEvent.cleared]
  { w with dm := dm, log := lg }

/-- Registry wrapper: the registry half of `remove_download` plus its log
entry. -/
def World.regRemove (w : World) (id : Nat) : World :=
  let dm := remove_download_dm id w.dm
  let lg := w.log ++ [RegEvent.removed id]
  { w with dm := dm, log := lg }

/-- `HashMap::insert`: registering a callback replaces any previous entry
for the same id. -/
def insertCb {α : Type} (tbl : List (Nat × α)) (id : Nat) (cb : α) :
    List (Nat × α) :=
  (id, cb) :: tbl.filter (fun e => e.1 != id)

/-- `HashMap::get`. -/
def lookupCb {α : Type} (tbl : List (Nat × α)) (id : Nat) : Option α :=
  (tbl.find? (fun e => e.1 == id)).map (fun e => e.2)

/-- `HashMap::remove`. -/
def removeCb {α : Type} (tbl : List (Nat × α)) (id : Nat) :
    List (Nat × α) :=
  tbl.filter (fun e => e.1 != id)

/-- `register_cancel_callback`. -/
def World.registerCancelCb (w : World) (id : Nat) (cb : CancelCb) : World :=
  { w with cancelCbs := insertCb w.cancelCbs id cb }

/-- `remove_cancel_callback`. -/
def World.removeCancelCb (w : World) (id : Nat) : World :=
  { w with cancelCbs := removeCb w.cancelCbs id }

/-- `register_resume_callback`. -/
def World.registerResumeCb (w : World) (id : Nat) (cb : ResumeCb) : World :=
  { w with resumeCbs := insertCb w.resumeCbs id cb }

/-- `remove_resume_callback`. -/
def World.removeResumeCb (w : World) (id : Nat) : World :=
  { w with resumeCbs := removeCb w.resumeCbs id }

/-- Engine behavior of `wk_download.cancel()`: the partial destination
file is deleted and the native download is flagged cancelled. -/
def World.nativeCancel (w : World) (id : Nat) (dest : String) : World :=
  { w with files := removeFile w.files dest
           nativeCancelled := id :: w.nativeCancelled }

/-- `std::fs::copy(src, dst)`: overwrites `dst`; a failure (missing `src`)
is logged by the code and otherwise ignored. -/
def World.copyFileIfExists (w : World) (src dst : String) : World :=
  match getFile w.files src with
  | some c => { w with files := setFile w.files dst c }
  | none => w

/-- `std::fs::rename(src, dst)` for an existing `src`. -/
def World.renameFile (w : World) (src dst : String) : World :=
  match getFile w.files src with
  | some c => { w with files := setFile (removeFile w.files src) dst c }
  | none => w

/-- Run one registered cancel callback (the closures from
`src/profile/manager.rs`).  None of them mutates the registry: they touch
the file system, the soup token and the native backend only. -/
def interpCancelCb (cb : CancelCb) (id : Nat) (w : World) : World :=
  match cb with
  | .native dest => w.nativeCancel id dest
  | .nativeBackup dest =>
      let w := if is_paused w.dm id then
          w.copyFileIfExists dest (withPartExtension dest)
        else w
      w.nativeCancel id dest
  | .soup dest =>
      let w := { w with cancelledTokens := id :: w.cancelledTokens }
      if is_paused w.dm id then
        w.copyFileIfExists dest (withPartExtension dest)
      else w

/-- `cancel_download`: set the status to `Cancelled` first, then invoke
the registered cancel callback (which therefore observes the already
cancelled status). -/
def cancel_download (id : Nat) (w : World) : World :=
  let w := w.regSetStatus id .Cancelled
  match lookupCb w.cancelCbs id with
  | some cb => interpCancelCb cb id w
  | none => w

/-- `pause_download`: set the status to `Paused` first, then invoke the
registered cancel callback. -/
def pause_download (id : Nat) (w : World) : World :=
  let w := w.regSetStatus id .Paused
  match lookupCb w.cancelCbs id with
  | some cb => interpCancelCb cb id w
  | none => w

/-- `remove_download`: drop the item from the registry, then its cancel
callback. -/
def remove_download (id : Nat) (w : World) : World :=
  (w.regRemove id).removeCancelCb id

/-- The `connect_finished` handler of `setup_download_handler`:
`was_cancelled` holds when a response is present with a positive expected
length and fewer bytes were received; only a non-short, non-paused finish
is promoted to `Completed` (and has its callbacks dropped). -/
def connect_finished (id : Nat) (respContentLength : Option Nat)
    (received : Nat) (w : World) : World :=
  let was_cancelled := match respContentLength with
    | some expected => decide (0 < expected) && decide (received < expected)
    | none => false
  if !was_cancelled && !(is_paused w.dm id) then
    ((w.regSetStatus id .Completed).removeCancelCb id).removeResumeCb id
  else w

/-- The `connect_failed` handler of `setup_download_handler`: record
`Failed` only when the transfer is neither paused nor already out of the
`InProgress` state; the cancel callback is dropped either way, the resume
callback kept. -/
def connect_failed (id : Nat) (err : String) (w : World) : World :=
  let w := if !(is_paused w.dm id) && is_active w.dm id then
      w.regSetStatus id (.Failed err)
    else w
  w.removeCancelCb id

/-- The HTTP response environment of one range request: status code,
`Content-Length`, the body chunks the successive reads return, and whether
the read after the last chunk fails instead of signalling EOF. -/
structure RangeResponse where
  status : Nat
  content_length : Nat
  chunks : List (List Nat)
  readError : Bool
deriving DecidableEq, Repr

/-- `file.write_all(&buffer[..n])` on the handle opened for `dest`. -/
def World.appendFile (w : World) (path : String) (chunk : List Nat) : World :=
  let c := (getFile w.files path).getD []
  { w with files := setFile w.files path (c ++ chunk) }

/-- The chunk loop of `resume_download_with_range`: before each read the
soup cancellation token is checked (cancelled means a clean exit, the
authoritative status having been set by the pause/cancel path); each read
chunk is written to the file, the received counter advanced and
`update_progress` called.  The returned flag is `true` for a clean exit
(EOF or cancellation), `false` for a read error. -/
def streamChunks (id : Nat) (dest : String) (total : Nat) (readErr : Bool) :
    List (List Nat) → Nat → World → World × Bool
  | [], _, w =>
      if id ∈ w.cancelledTokens then (w, true) else (w, !readErr)
  | c :: cs, received, w =>
      if id ∈ w.cancelledTokens then (w, true)
      else
        let received := received + c.length
        let w := (w.appendFile dest c).regUpdateProgress id received total
        streamChunks id dest total readErr cs received w

/-- The `async` block of `resume_download_with_range`: issue the request
with `Range: bytes=<start_byte>-`, check the response status, compute the
total (206: `start_byte + content_length`; 200: `content_length`), open
the destination (206: append, which requires the file to exist; 200:
report progress 0 and truncate), then stream.  Returns the world and
`none` for `Ok(())`, `some message` for `Err`. -/
def resume_body (id : Nat) (url dest : String) (start_byte : Nat)
    (resp : Option RangeResponse) (w : World) : World × Option String :=
  let w := { w with requests := w.requests ++ [(url, start_byte)] }
  match resp with
  | none => (w, some "send failed")
  | some r =>
      if r.status != 206 && r.status != 200 then
        (w, some ("Server returned status " ++ toString r.status))
      else
        let total := if r.status == 206 then start_byte + r.content_length
          else r.content_length
        if r.status == 206 then
          match getFile w.files dest with
          | none => (w, some "append open failed")
          | some _ =>
              let p := streamChunks id dest total r.readError r.chunks
                start_byte w
              (p.1, if p.2 then none else some "Read error")
        else
          let w := w.regUpdateProgress id 0 total
          let w := { w with files := setFile w.files dest [] }
          let p := streamChunks id dest total r.readError r.chunks 0 w
          (p.1, if p.2 then none else some "Read error")

/-- The completion of the spawned future: when the transfer is neither
paused nor out of `InProgress`, an `Ok` body yields `Completed` (and both
callbacks dropped) and an `Err` body yields `Failed`. -/
def resume_async (id : Nat) (url dest : String) (start_byte : Nat)
    (resp : Option RangeResponse) (w : World) : World :=
  let p := resume_body id url dest start_byte resp w
  if !(is_paused p.1.dm id) && is_active p.1.dm id then
    match p.2 with
    | none => ((p.1.regSetStatus id .Completed).removeCancelCb id).removeResumeCb id
    | some e => p.1.regSetStatus id (.Failed e)
  else p.1

/-- The synchronous prefix of `resume_download_with_range`: restore the
`.part` backup when the destination is gone, register the soup cancel
callback (replacing the native one), set the status to `InProgress`.
(The Rust early return on a failed rename is not modelled: the modelled
rename of an existing source always succeeds.) -/
def resume_sync (id : Nat) (dest : String) (w : World) : World :=
  let backup := withPartExtension dest
  let w := if fileExists w.files backup && !(fileExists w.files dest) then
      w.renameFile backup dest
    else w
  let w := w.registerCancelCb id (.soup dest)
  w.regSetStatus id .InProgress

/-- `resume_download_with_range` end to end: the synchronous prefix
followed by the spawned body (which the single-threaded event loop runs
next, nothing else intervening). -/
def resume_download_with_range (id : Nat) (url dest : String)
    (start_byte : Nat) (resp : Option RangeResponse) (w : World) : World :=
  resume_async id url dest start_byte resp (resume_sync id dest w)

/-- `resume_download` end to end: invoke the registered resume callback,
which looks the transfer up (only found while `Paused`) and runs the range
resume with `start_byte` equal to its received counter. -/
def resume_download (id : Nat) (resp : Option RangeResponse) (w : World) :
    World :=
  match lookupCb w.resumeCbs id with
  | some .rangeResume =>
      match get_download_for_resume w.dm id with
      | some (url, dest, received) =>
          resume_download_with_range id url dest received resp w
      | none => w
  | none => w

/-- The part of `resume_download` that runs synchronously in the invoking
event-loop turn; the spawned body is a later turn (`Op.resumeBody`). -/
def resume_download_sync (id : Nat) (w : World) : World :=
  match lookupCb w.resumeCbs id with
  | some .rangeResume =>
      match get_download_for_resume w.dm id with
      | some (_url, dest, _received) => resume_sync id dest w
      | none => w
  | none => w

/-- One event-loop turn touching the download subsystem: the registry
calls the UI makes, the backend events, and the two halves of a resume.
`add` is the auto-save destination decision, which adds the transfer and
registers the backup-aware cancel callback and the range resume
callback. -/
inductive Op where
  | add (url name dest : String) (now : Nat)
  | update (id received total : Nat)
  | setSupports (id : Nat) (supports : Bool)
  | cancel (id : Nat)
  | pause (id : Nat)
  | resume (id : Nat)
  | resumeBody (id : Nat) (url dest : String) (start : Nat)
      (resp : Option RangeResponse)
  | finished (id : Nat) (respContentLength : Option Nat) (received : Nat)
  | failed (id : Nat) (err : String)
  | clear
  | remove (id : Nat)

/-- Interpretation of one event-loop turn. -/
def step : Op → World → World
  | .add url name dest now, w =>
      let p := add_download url name dest now w.dm
      let w := { w with dm := p.1, log := w.log ++ [RegEvent.added p.2] }
      let w := w.registerCancelCb p.2 (.nativeBackup dest)
      w.registerResumeCb p.2 .rangeResume
  | .update id received total, w => w.regUpdateProgress id received total
  | .setSupports id supports, w => w.regSetSupports id supports
  | .cancel id, w => cancel_download id w
  | .pause id, w => pause_download id w
  | .resume id, w => resume_download_sync id w
  | .resumeBody id url dest start resp, w => resume_async id url dest start resp w
  | .finished id resp received, w => connect_finished id resp received w
  | .failed id err, w => connect_failed id err w
  | .clear, w => w.regClear
  | .remove id, w => remove_download id w

/-- The `update_progress` events the chunk loop emits when it runs to EOF
without cancellation: one per chunk, at the running received counter. -/
def progressTrace (id total : Nat) : Nat → List (List Nat) → List RegEvent
  | _, [] => []
  | received, c :: cs =>
      RegEvent.progress id (received + c.length) total ::
        progressTrace id total (received + c.length) cs

/-- Rust `filename.rfind('.')` split: the stem and, when a dot exists, the
extension including its dot. -/
def splitAtLastDot (filename : String) : String × Option String :=
  let cs := filename.toList
  match lastIdxOf '.' cs with
  | some i => (⟨cs.take i⟩, some ⟨cs.drop i⟩)
  | none => (filename, none)

/-- One collision candidate: `stem.(n)ext` (the extension already carries
its dot), or `stem.(n)` without an extension. -/
def candidateName (stem : String) (ext : Option String) (n : Nat) : String :=
  match ext with
  | some e => stem ++ ".(" ++ toString n ++ ")" ++ e
  | none => stem ++ ".(" ++ toString n ++ ")"

/-- The timestamp fallback name: `stem.<ts>ext`. -/
def timestampName (stem : String) (ext : Option String) (ts : Nat) : String :=
  match ext with
  | some e => stem ++ "." ++ toString ts ++ e
  | none => stem ++ "." ++ toString ts

/-- The counter loop of `unique_filename` (`for counter in 1..1000`):
try `counter`, `counter+1`, … while the candidate exists, for `fuel`
attempts. -/
def tryCounters (existing : List String) (stem : String)
    (ext : Option String) : Nat → Nat → Option String
  | _, 0 => none
  | counter, fuel + 1 =>
      let name := candidateName stem ext counter
      if name ∈ existing then tryCounters existing stem ext (counter + 1) fuel
      else some name

/-- `unique_filename` over the directory contents `existing` (the names
for which `path.exists()` holds): the desired name when free, else the
first free `stem.(n)ext` for `n = 1, …, 999`, else the timestamp
fallback. -/
def unique_filename (existing : List String) (filename : String)
    (ts : Nat) : String :=
  if filename ∈ existing then
    let p := splitAtLastDot filename
    match tryCounters existing p.1 p.2 1 999 with
    | some name => name
    | none => timestampName p.1 p.2 ts
  else filename

/-- A registry-level call, for reasoning about sequences of calls within
one process.  `add` is the only one that returns an id. -/
inductive RegOp where
  | add (url name dest : String) (now : Nat)
  | update (id received total : Nat)
  | setStatus (id : Nat) (st : DownloadStatus)
  | setSupports (id : Nat) (supports : Bool)
  | clear
  | remove (id : Nat)

/-- Run one registry call; the returned id when the call is an `add`. -/
def applyRegOp : RegOp → GlobalDownloadManager →
    GlobalDownloadManager × Option Nat
  | .add url name dest now, dm =>
      let p := add_download url name dest now dm
      (p.1, some p.2)
  | .update id r t, dm => (update_progress id r t dm, none)
  | .setStatus id st, dm => (set_download_status id st dm, none)
  | .setSupports id b, dm => (set_supports_resume id b dm, none)
  | .clear, dm => (clear_completed dm, none)
  | .remove id, dm => (remove_download_dm id dm, none)

/-- Run a sequence of registry calls, collecting the ids the `add` calls
return, in call order. -/
def runRegOps : List RegOp → GlobalDownloadManager →
    GlobalDownloadManager × List Nat
  | [], dm => (dm, [])
  | op :: ops, dm =>
      let p := applyRegOp op dm
      let q := runRegOps ops p.1
      (q.1, p.2.toList ++ q.2)

/-- A transfer with the given id, status, byte counters and resume flag
(concrete worlds for the examples below). -/
def mkItem (id : Nat) (st : DownloadStatus) (received total : Nat)
    (sup : Bool) : DownloadItem :=
  { id := id, filename := "file.bin", url := "http://x/file.bin"
    destination := "/tmp/file.bin", total_bytes := total
    received_bytes := received, status := st, started_at := 0
    supports_resume := sup }

/-- A world holding the given transfers and nothing else. -/
def mkWorld (items : List DownloadItem) : World :=
  { dm := { downloads := items, next_id := items.length + 1 }
    cancelCbs := [], resumeCbs := [], files := [], cancelledTokens := []
    nativeCancelled := [], requests := [], log := [] }

/-- A registry holding one Completed transfer, for the C4 example. -/
def dmCompleted : GlobalDownloadManager :=
  { downloads := [mkItem 1 .Completed 10 100 false], next_id := 2 }

/-- A world with one Paused transfer that does not support range resume,
and the range resume callback the auto-save path registers. -/
def wPausedNoRange : World :=
  { mkWorld [mkItem 1 .Paused 50 100 false] with
      resumeCbs := [(1, ResumeCb.rangeResume)] }

/-- A directory holding the desired name and all 999 counter candidates,
exhausting the bound of the C7 loop. -/
def crowdedDir : List String :=
  "report.pdf" ::
    (List.range 999).map (fun i => candidateName "report" (some ".pdf") (i + 1))

/-- A world with one paused transfer at 2 of 4 bytes whose destination
file holds two bytes, for the C5 example. -/
def wResume : World :=
  { mkWorld [mkItem 1 .Paused 2 4 true] with
      files := [("/tmp/file.bin", [9, 9])] }

lemma updateFirst_of_forall_not (p : DownloadItem → Bool)
    (f : DownloadItem → DownloadItem) (l : List DownloadItem)
    (h : ∀ d ∈ l, p d = false) : updateFirst p f l = l := by
  induction l with
  | nil => rfl
  | cons d ds ih =>
      have hd : p d = false := h d (by simp)
      have ht : updateFirst p f ds = ds :=
        ih (fun x hx => h x (by simp [hx]))
      simp [updateFirst, hd, ht]

lemma find?_updateFirst_map {α : Type} (i id : Nat)
    (f : DownloadItem → DownloadItem) (g : DownloadItem → α)
    (hid : ∀ d, (f d).id = d.id) (hg : ∀ d, g (f d) = g d)
    (l : List DownloadItem) :
    ((updateFirst (fun d => d.id == i) f l).find? (fun d => d.id == id)).map g
      = (l.find? (fun d => d.id == id)).map g := by
  induction l with
  | nil => rfl
  | cons d ds ih =>
      by_cases h1 : (d.id == i) = true
      · have h2 : ((f d).id == id) = (d.id == id) := by rw [hid]
        by_cases h3 : (d.id == id) = true
        · simp [updateFirst, h1, List.find?_cons_of_pos, h2, h3, hg]
        · have h3' : (d.id == id) = false := by simpa using h3
          simp [updateFirst, h1, List.find?_cons_of_neg, h2, h3']
      · have h1' : (d.id == i) = false := by simpa using h1
        by_cases h3 : (d.id == id) = true
        · simp [updateFirst, h1', List.find?_cons_of_pos, h3]
        · have h3' : (d.id == id) = false := by simpa using h3
          simp [updateFirst, h1', List.find?_cons_of_neg, h3', ih]

lemma find?_updateFirst_self (id : Nat) (f : DownloadItem → DownloadItem)
    (hid : ∀ d, (f d).id = d.id) (l : List DownloadItem) :
    (updateFirst (fun d => d.id == id) f l).find? (fun d => d.id == id)
      = (l.find? (fun d => d.id == id)).map f := by
  induction l with
  | nil => rfl
  | cons d ds ih =>
      by_cases h1 : (d.id == id) = true
      · have h2 : ((f d).id == id) = true := by rw [hid]; exact h1
        simp [updateFirst, h1, List.find?_cons_of_pos, h2]
      · have h1' : (d.id == id) = false := by simpa using h1
        simp [updateFirst, h1', List.find?_cons_of_neg, ih]

lemma find?_updateFirst_ne (i id : Nat) (hne : i ≠ id)
    (f : DownloadItem → DownloadItem) (hid : ∀ d, (f d).id = d.id)
    (l : List DownloadItem) :
    (updateFirst (fun d => d.id == i) f l).find? (fun d => d.id == id)
      = l.find? (fun d => d.id == id) := by
  induction l with
  | nil => rfl
  | cons d ds ih =>
      by_cases h1 : (d.id == i) = true
      · have hdi : d.id = i := by simpa using h1
        have h2 : ((f d).id == id) = false := by
          simp [hid, hdi]; exact hne
        have h3 : (d.id == id) = false := by simp [hdi]; exact hne
        simp [updateFirst, h1, List.find?_cons_of_neg, h2, h3]
      · have h1' : (d.id == i) = false := by simpa using h1
        by_cases h3 : (d.id == id) = true
        · simp [updateFirst, h1', List.find?_cons_of_pos, h3]
        · have h3' : (d.id == id) = false := by simpa using h3
          simp [updateFirst, h1', List.find?_cons_of_neg, h3', ih]

lemma statusOf_update_progress (i r t id : Nat)
    (dm : GlobalDownloadManager) :
    statusOf (update_progress i r t dm) id = statusOf dm id := by
  simp only [statusOf, update_progress]
  exact find?_updateFirst_map i id
    (fun d => { d with received_bytes := r, total_bytes := t })
    (fun d => d.status) (fun d => rfl) (fun d => rfl) dm.downloads

lemma statusOf_set_supports_resume (i : Nat) (b : Bool) (id : Nat)
    (dm : GlobalDownloadManager) :
    statusOf (set_supports_resume i b dm) id = statusOf dm id := by
  simp only [statusOf, set_supports_resume]
  exact find?_updateFirst_map i id
    (fun d => { d with supports_resume := b })
    (fun d => d.status) (fun d => rfl) (fun d => rfl) dm.downloads

lemma statusOf_set_download_status_self (id : Nat) (st : DownloadStatus)
    (dm : GlobalDownloadManager) (s : DownloadStatus)
    (h : statusOf dm id = some s) :
    statusOf (set_download_status id st dm) id = some st := by
  simp only [statusOf, set_download_status] at h ⊢
  rw [find?_updateFirst_self id (fun d => { d with status := st })
    (fun d => rfl)]
  obtain ⟨d, hd, -⟩ : ∃ d, dm.downloads.find? (fun d => d.id == id) = some d
      ∧ d.status = s := by
    cases hf : dm.downloads.find? (fun d => d.id == id) with
    | none => rw [hf] at h; simp at h
    | some d => rw [hf] at h; exact ⟨d, rfl, by simpa using h⟩
  rw [hd]; rfl

lemma statusOf_set_download_status_ne (i id : Nat) (hne : i ≠ id)
    (st : DownloadStatus) (dm : GlobalDownloadManager) :
    statusOf (set_download_status i st dm) id = statusOf dm id := by
  simp only [statusOf, set_download_status]
  rw [find?_updateFirst_ne i id hne (fun d => { d with status := st })
    (fun d => rfl)]

lemma receivedOf_update_progress_self (id r t : Nat)
    (dm : GlobalDownloadManager) (s : DownloadStatus)
    (h : statusOf dm id = some s) :
    receivedOf (update_progress id r t dm) id = some r := by
  simp only [statusOf] at h
  simp only [receivedOf, update_progress]
  rw [find?_updateFirst_self id
    (fun d => { d with received_bytes := r, total_bytes := t })
    (fun d => rfl)]
  cases hf : dm.downloads.find? (fun d => d.id == id) with
  | none => rw [hf] at h; simp at h
  | some d => rfl

lemma totalOf_update_progress_self (id r t : Nat)
    (dm : GlobalDownloadManager) (s : DownloadStatus)
    (h : statusOf dm id = some s) :
    totalOf (update_progress id r t dm) id = some t := by
  simp only [statusOf] at h
  simp only [totalOf, update_progress]
  rw [find?_updateFirst_self id
    (fun d => { d with received_bytes := r, total_bytes := t })
    (fun d => rfl)]
  cases hf : dm.downloads.find? (fun d => d.id == id) with
  | none => rw [hf] at h; simp at h
  | some d => rfl

lemma supportsOf_set_supports_resume_self (id : Nat) (b : Bool)
    (dm : GlobalDownloadManager) (s : DownloadStatus)
    (h : statusOf dm id = some s) :
    supportsOf (set_supports_resume id b dm) id = some b := by
  simp only [statusOf] at h
  simp only [supportsOf, set_supports_resume]
  rw [find?_updateFirst_self id (fun d => { d with supports_resume := b })
    (fun d => rfl)]
  cases hf : dm.downloads.find? (fun d => d.id == id) with
  | none => rw [hf] at h; simp at h
  | some d => rfl

lemma is_paused_iff (dm : GlobalDownloadManager) (id : Nat) :
    is_paused dm id = true ↔ statusOf dm id = some .Paused := by
  simp only [is_paused, statusOf]
  cases hf : dm.downloads.find? (fun d => d.id == id) with
  | none => simp
  | some d =>
      simp only [Option.map_some]
      cases hs : d.status <;> simp [DownloadItem.is_paused, hs]

lemma is_active_iff (dm : GlobalDownloadManager) (id : Nat) :
    is_active dm id = true ↔ statusOf dm id = some .InProgress := by
  simp only [is_active, statusOf]
  cases hf : dm.downloads.find? (fun d => d.id == id) with
  | none => simp
  | some d =>
      simp only [Option.map_some]
      cases hs : d.status <;> simp [DownloadItem.is_active, hs]

lemma find?_paused_of_nodup (id : Nat) (l : List DownloadItem)
    (hnd : (l.map (fun d => d.id)).Nodup) (d : DownloadItem)
    (h : l.find? (fun d => d.id == id && d.is_paused) = some d) :
    l.find? (fun d => d.id == id) = some d := by
  induction l with
  | nil => simp at h
  | cons x xs ih =>
      have hsplit : (x.id ∉ List.map (fun d => d.id) xs)
          ∧ (List.map (fun d => d.id) xs).Nodup := by
        have h0 := hnd
        rw [List.map_cons, List.nodup_cons] at h0
        exact h0
      by_cases h1 : (x.id == id && x.is_paused) = true
      · rw [List.find?_cons_of_pos (p := fun d => d.id == id && d.is_paused)
          xs h1] at h
        have hx : (x.id == id) = true := by
          have h1' : x.id = id ∧ x.is_paused = true := by simpa using h1
          simp [h1'.1]
        rw [List.find?_cons_of_pos (p := fun d => d.id == id) xs hx]
        exact h
      · rw [List.find?_cons_of_neg (p := fun d => d.id == id && d.is_paused)
          xs h1] at h
        by_cases h2 : (x.id == id) = true
        · exfalso
          have hdmem : d ∈ xs := List.mem_of_find?_eq_some h
          have hdp := List.find?_some h
          have hdid : d.id = id := by
            have hdp' : d.id = id ∧ d.is_paused = true := by simpa using hdp
            exact hdp'.1
          have hxid : x.id = id := by simpa using h2
          exact hsplit.1 (by
            rw [hxid, ← hdid]
            exact List.mem_map_of_mem (fun d => d.id) hdmem)
        · rw [List.find?_cons_of_neg (p := fun d => d.id == id) xs h2]
          exact ih hsplit.2 h

lemma interpCancelCb_dm (cb : CancelCb) (id : Nat) (w : World) :
    (interpCancelCb cb id w).dm = w.dm := by
  cases cb with
  | native dest => rfl
  | nativeBackup dest =>
      simp only [interpCancelCb, World.copyFileIfExists]
      by_cases h : is_paused w.dm id = true
      · simp only [h, if_true]
        cases getFile w.files dest <;> rfl
      · simp only [if_neg h]; rfl
  | soup dest =>
      simp only [interpCancelCb, World.copyFileIfExists]
      by_cases h : is_paused w.dm id = true
      · simp only [h, if_true]
        cases getFile w.files dest <;> rfl
      · simp only [if_neg h]

lemma getFile_setFile_self (files : List (String × List Nat))
    (path : String) (v : List Nat) :
    getFile (setFile files path v) path = some v := by
  simp [getFile, setFile]

lemma streamChunks_snd (id : Nat) (dest : String) (total : Nat)
    (cs : List (List Nat)) :
    ∀ (received : Nat) (w : World),
      id ∉ w.cancelledTokens →
      (streamChunks id dest total false cs received w).2 = true := by
  induction cs with
  | nil => intro received w h; simp [streamChunks, h]
  | cons c cs ih =>
      intro received w h
      simp only [streamChunks]
      rw [if_neg h]
      exact ih (received + c.length)
        ((w.appendFile dest c).regUpdateProgress id (received + c.length)
          total) h

lemma streamChunks_log (id : Nat) (dest : String) (total : Nat)
    (rerr : Bool) (cs : List (List Nat)) :
    ∀ (received : Nat) (w : World),
      id ∉ w.cancelledTokens →
      (streamChunks id dest total rerr cs received w).1.log
        = w.log ++ progressTrace id total received cs := by
  induction cs with
  | nil => intro received w h; simp [streamChunks, h, progressTrace]
  | cons c cs ih =>
      intro received w h
      simp only [streamChunks]
      rw [if_neg h]
      rw [ih (received + c.length)
        ((w.appendFile dest c).regUpdateProgress id (received + c.length)
          total) h]
      simp [World.regUpdateProgress, World.appendFile, progressTrace]

lemma streamChunks_files (id : Nat) (dest : String) (total : Nat)
    (rerr : Bool) (cs : List (List Nat)) :
    ∀ (received : Nat) (w : World) (c0 : List Nat),
      id ∉ w.cancelledTokens →
      getFile w.files dest = some c0 →
      getFile (streamChunks id dest total rerr cs received w).1.files dest
        = some (c0 ++ cs.flatten) := by
  induction cs with
  | nil => intro received w c0 h hf; simp [streamChunks, h, hf]
  | cons c cs ih =>
      intro received w c0 h hf
      simp only [streamChunks]
      rw [if_neg h]
      rw [ih (received + c.length)
        ((w.appendFile dest c).regUpdateProgress id (received + c.length)
          total) (c0 ++ c) h
        (by simp [World.regUpdateProgress, World.appendFile, hf,
          getFile_setFile_self])]
      simp

lemma streamChunks_statusOf (id : Nat) (dest : String) (total : Nat)
    (rerr : Bool) (cs : List (List Nat)) (j : Nat) :
    ∀ (received : Nat) (w : World),
      statusOf (streamChunks id dest total rerr cs received w).1.dm j
        = statusOf w.dm j := by
  induction cs with
  | nil =>
      intro received w
      simp only [streamChunks]
      by_cases h : id ∈ w.cancelledTokens
      · rw [if_pos h]
      · rw [if_neg h]
  | cons c cs ih =>
      intro received w
      simp only [streamChunks]
      by_cases h : id ∈ w.cancelledTokens
      · rw [if_pos h]
      · rw [if_neg h]
        rw [ih (received + c.length)
          ((w.appendFile dest c).regUpdateProgress id (received + c.length)
            total)]
        simp [World.regUpdateProgress, World.appendFile,
          statusOf_update_progress]

lemma streamChunks_requests (id : Nat) (dest : String) (total : Nat)
    (rerr : Bool) (cs : List (List Nat)) :
    ∀ (received : Nat) (w : World),
      (streamChunks id dest total rerr cs received w).1.requests
        = w.requests := by
  induction cs with
  | nil =>
      intro received w
      simp only [streamChunks]
      by_cases h : id ∈ w.cancelledTokens
      · rw [if_pos h]
      · rw [if_neg h]
  | cons c cs ih =>
      intro received w
      simp only [streamChunks]
      by_cases h : id ∈ w.cancelledTokens
      · rw [if_pos h]
      · rw [if_neg h]
        rw [ih (received + c.length)
          ((w.appendFile dest c).regUpdateProgress id (received + c.length)
            total)]
        rfl

lemma statusOf_mem (dm : GlobalDownloadManager) (id : Nat)
    (s : DownloadStatus) (h : statusOf dm id = some s) :
    ∃ d ∈ dm.downloads, d.id = id ∧ d.status = s := by
  simp only [statusOf] at h
  cases hf : dm.downloads.find? (fun d => d.id == id) with
  | none => rw [hf] at h; simp at h
  | some d =>
      rw [hf] at h
      refine ⟨d, List.mem_of_find?_eq_some hf, ?_, by simpa using h⟩
      simpa using List.find?_some hf

lemma cancel_download_dm (id : Nat) (w : World) :
    (cancel_download id w).dm = set_download_status id .Cancelled w.dm := by
  simp only [cancel_download]
  cases hcb : lookupCb (w.regSetStatus id DownloadStatus.Cancelled).cancelCbs
      id with
  | none => simp only [hcb]; rfl
  | some cb => simp only [hcb]; rw [interpCancelCb_dm]; rfl

lemma pause_download_dm (id : Nat) (w : World) :
    (pause_download id w).dm = set_download_status id .Paused w.dm := by
  simp only [pause_download]
  cases hcb : lookupCb (w.regSetStatus id DownloadStatus.Paused).cancelCbs
      id with
  | none => simp only [hcb]; rfl
  | some cb => simp only [hcb]; rw [interpCancelCb_dm]; rfl

lemma resume_sync_dm (id : Nat) (dest : String) (w : World) :
    (resume_sync id dest w).dm
      = set_download_status id .InProgress w.dm := by
  unfold resume_sync World.renameFile
  by_cases h : (fileExists w.files (withPartExtension dest)
      && !fileExists w.files dest) = true
  · simp only [h, if_true]
    cases getFile w.files (withPartExtension dest) <;> rfl
  · simp only [h, Bool.false_eq_true, if_false]
    rfl

lemma resume_body_statusOf (id : Nat) (url dest : String) (start : Nat)
    (resp : Option RangeResponse) (w : World) (j : Nat) :
    statusOf (resume_body id url dest start resp w).1.dm j
      = statusOf w.dm j := by
  unfold resume_body
  cases resp with
  | none => rfl
  | some r =>
      by_cases h1 : (r.status != 206 && r.status != 200) = true
      · simp only [h1, if_true]
      · simp only [h1, Bool.false_eq_true, if_false]
        by_cases h2 : (r.status == 206) = true
        · simp only [h2, if_true]
          cases hf : getFile w.files dest with
          | none => simp [hf]
          | some c =>
              simp only [hf]
              rw [streamChunks_statusOf]
        · simp only [h2, Bool.false_eq_true, if_false]
          rw [streamChunks_statusOf]
          simp [World.regUpdateProgress, statusOf_update_progress]

lemma applyRegOp_next_id (op : RegOp) (dm : GlobalDownloadManager) :
    dm.next_id ≤ (applyRegOp op dm).1.next_id := by
  cases op <;>
    simp [applyRegOp, add_download, update_progress, set_download_status,
      set_supports_resume, clear_completed, remove_download_dm]

lemma runRegOps_lb (ops : List RegOp) :
    ∀ (dm : GlobalDownloadManager) (x : Nat),
      x ∈ (runRegOps ops dm).2 → dm.next_id ≤ x := by
  induction ops with
  | nil => intro dm x hx; simp [runRegOps] at hx
  | cons op ops ih =>
      intro dm x hx
      simp only [runRegOps] at hx
      rcases List.mem_append.mp hx with h1 | h2
      · cases op with
        | add url name dest now =>
            simp [applyRegOp, add_download] at h1
            omega
        | update id r t => simp [applyRegOp] at h1
        | setStatus id st => simp [applyRegOp] at h1
        | setSupports id b => simp [applyRegOp] at h1
        | clear => simp [applyRegOp] at h1
        | remove id => simp [applyRegOp] at h1
      · exact le_trans (applyRegOp_next_id op dm) (ih _ x h2)

lemma tryCounters_hit (existing : List String) (stem : String)
    (ext : Option String) :
    ∀ (fuel counter n : Nat), counter ≤ n → n < counter + fuel →
      candidateName stem ext n ∉ existing →
      (∀ m, counter ≤ m → m < n → candidateName stem ext m ∈ existing) →
      tryCounters existing stem ext counter fuel
        = some (candidateName stem ext n) := by
  intro fuel
  induction fuel with
  | zero => intro counter n h1 h2 _ _; omega
  | succ fuel ih =>
      intro counter n h1 h2 h3 h4
      by_cases hc : counter = n
      · subst hc
        simp only [tryCounters]
        rw [if_neg h3]
      · have hlt : counter < n := lt_of_le_of_ne h1 hc
        have hmem : candidateName stem ext counter ∈ existing :=
          h4 counter le_rfl hlt
        simp only [tryCounters]
        rw [if_pos hmem]
        exact ih (counter + 1) n hlt (by omega) h3
          (fun m hm1 hm2 => h4 m (by omega) hm2)

lemma tryCounters_exhausted (existing : List String) (stem : String)
    (ext : Option String) :
    ∀ (fuel counter : Nat),
      (∀ m, counter ≤ m → m < counter + fuel →
        candidateName stem ext m ∈ existing) →
      tryCounters existing stem ext counter fuel = none := by
  intro fuel
  induction fuel with
  | zero => intro counter _; rfl
  | succ fuel ih =>
      intro counter h
      have hmem : candidateName stem ext counter ∈ existing :=
        h counter le_rfl (by omega)
      simp only [tryCounters]
      rw [if_pos hmem]
      exact ih (counter + 1) (fun m hm1 hm2 => h m (by omega) (by omega))

lemma connect_finished_dm_cases (i : Nat) (resp : Option Nat)
    (received : Nat) (w : World) :
    (connect_finished i resp received w).dm = w.dm ∨
    (connect_finished i resp received w).dm
      = set_download_status i .Completed w.dm := by
  simp only [connect_finished]
  split
  · right; rfl
  · left; rfl

lemma connect_failed_dm_cases (i : Nat) (err : String) (w : World) :
    (connect_failed i err w).dm = w.dm ∨
    (connect_failed i err w).dm
      = set_download_status i (.Failed err) w.dm := by
  simp only [connect_failed]
  split
  · right; rfl
  · left; rfl

lemma resume_async_dm_cases (i : Nat) (url dest : String) (start : Nat)
    (resp : Option RangeResponse) (w : World) :
    (resume_async i url dest start resp w).dm
        = (resume_body i url dest start resp w).1.dm ∨
    (resume_async i url dest start resp w).dm
        = set_download_status i .Completed
            (resume_body i url dest start resp w).1.dm ∨
    ∃ e, (resume_async i url dest start resp w).dm
        = set_download_status i (.Failed e)
            (resume_body i url dest start resp w).1.dm := by
  simp only [resume_async]
  split
  · split
    · right; left; rfl
    · right; right; exact ⟨_, rfl⟩
  · left; rfl

/-- C4 counterexample: the claim "no subsequent registry operation further
mutates a terminal transfer" fails: `update_progress` on a transfer whose
status is `Completed` overwrites its received counter (10 becomes 99). -/
theorem terminal_not_immutable_counterexample :
    statusOf dmCompleted 1 = some .Completed ∧
    receivedOf dmCompleted 1 = some 10 ∧
    receivedOf (update_progress 1 99 100 dmCompleted) 1 = some 99 := by
  decide

/-- C4 amended: the registry operations are unconditional on status — for a
transfer present with any status, terminal ones included, `update_progress`
overwrites both byte counters, `set_download_status` overwrites the status
and `set_supports_resume` overwrites the flag; terminality is maintained
only by the guards of the callers, not by the registry. -/
theorem registry_ops_unconditional (dm : GlobalDownloadManager)
    (id r t : Nat) (st : DownloadStatus) (b : Bool) (s : DownloadStatus)
    (h : statusOf dm id = some s) :
    receivedOf (update_progress id r t dm) id = some r ∧
    totalOf (update_progress id r t dm) id = some t ∧
    statusOf (set_download_status id st dm) id = some st ∧
    supportsOf (set_supports_resume id b dm) id = some b :=
  ⟨receivedOf_update_progress_self id r t dm s h,
   totalOf_update_progress_self id r t dm s h,
   statusOf_set_download_status_self id st dm s h,
   supportsOf_set_supports_resume_self id b dm s h⟩

/-- C4 witness: the amended theorem applied to the Completed transfer. -/
theorem registry_ops_unconditional_witness :
    receivedOf (update_progress 1 99 100 dmCompleted) 1 = some 99 ∧
    totalOf (update_progress 1 99 100 dmCompleted) 1 = some 100 ∧
    statusOf (set_download_status 1 .Paused dmCompleted) 1 = some .Paused ∧
    supportsOf (set_supports_resume 1 true dmCompleted) 1 = some true :=
  registry_ops_unconditional dmCompleted 1 99 100 .Paused true .Completed
    (by decide)

/-- C8: `update_progress` on an id no transfer carries is a complete
no-op: the registry value (the transfer list and every field of every
transfer) is unchanged, and no error arises (the operation is total). -/
theorem update_progress_unknown_id_noop (dm : GlobalDownloadManager)
    (id received total : Nat) (h : ∀ d ∈ dm.downloads, d.id ≠ id) :
    update_progress id received total dm = dm := by
  simp only [update_progress]
  have he : updateFirst (fun d => d.id == id)
      (fun d => { d with received_bytes := received, total_bytes := total })
      dm.downloads = dm.downloads :=
    updateFirst_of_forall_not _ _ _ (fun d hd => by
      simpa using h d hd)
  rw [he]

/-- C8 witness: the theorem applied to a one-transfer registry and the
absent id 2. -/
theorem update_progress_unknown_id_noop_witness :
    update_progress 2 77 100 dmCompleted = dmCompleted :=
  update_progress_unknown_id_noop dmCompleted 2 77 100 (by decide)

/-- C9: `clear_completed` retains exactly the transfers whose status is
`InProgress`; every `Paused` transfer (like every terminal one) is deleted
by the bulk clear. -/
theorem clear_completed_retains_exactly_inprogress
    (dm : GlobalDownloadManager) (d : DownloadItem) :
    d ∈ (clear_completed dm).downloads
      ↔ d ∈ dm.downloads ∧ d.status = .InProgress := by
  have hact : ∀ e : DownloadItem,
      e.is_active = true ↔ e.status = .InProgress := by
    intro e
    cases h : e.status <;> simp [DownloadItem.is_active, h]
  simp only [clear_completed, List.mem_filter]
  rw [hact d]

/-- C10: `DownloadItem.progress` is total and never divides by zero: a
transfer with `total_bytes = 0` reports progress `0`, any other reports
the quotient `received_bytes / total_bytes`. -/
theorem progress_total_no_div_by_zero (d : DownloadItem) :
    (d.total_bytes = 0 → d.progress = 0) ∧
    (0 < d.total_bytes →
      d.progress = (d.received_bytes : ℚ) / (d.total_bytes : ℚ)) := by
  constructor
  · intro h; simp [DownloadItem.progress, h]
  · intro h
    simp [DownloadItem.progress, Nat.pos_iff_ne_zero.mp h]

/-- C10 witness: the theorem applied to a zero-total and to a positive-total
transfer. -/
theorem progress_total_no_div_by_zero_witness :
    (mkItem 1 .InProgress 50 0 false).progress = 0 ∧
    (mkItem 2 .InProgress 50 100 false).progress
      = (((50 : Nat) : ℚ) / ((100 : Nat) : ℚ)) :=
  ⟨(progress_total_no_div_by_zero (mkItem 1 .InProgress 50 0 false)).1 rfl,
   (progress_total_no_div_by_zero (mkItem 2 .InProgress 50 100 false)).2
     (by decide)⟩

/-- C6: across any sequence of registry calls within one process, the ids
the `add` calls return are pairwise strictly increasing — each is greater
than every id returned before it — so an id is never reused, also after
the transfer bearing it has been removed. -/
theorem add_ids_strictly_increasing (ops : List RegOp)
    (dm : GlobalDownloadManager) :
    ((runRegOps ops dm).2).Pairwise (· < ·) := by
  induction ops generalizing dm with
  | nil => simp [runRegOps]
  | cons op ops ih =>
      simp only [runRegOps]
      cases op with
      | add url name dest now =>
          have hrest := ih (applyRegOp (.add url name dest now) dm).1
          have hlb := runRegOps_lb ops (applyRegOp (.add url name dest now) dm).1
          simp only [applyRegOp, Option.toList, List.singleton_append]
          refine List.Pairwise.cons (fun y hy => ?_) ?_
          · have hy' := hlb y (by simpa [applyRegOp] using hy)
            simp only [applyRegOp, add_download] at hy'
            simpa [add_download] using lt_of_lt_of_le (Nat.lt_succ_self _) hy'
          · simpa [applyRegOp] using hrest
      | update id r t => simpa [applyRegOp] using ih _
      | setStatus id st => simpa [applyRegOp] using ih _
      | setSupports id b => simpa [applyRegOp] using ih _
      | clear => simpa [applyRegOp] using ih _
      | remove id => simpa [applyRegOp] using ih _

/-- C7: filename collision resolution is a pure function of the directory
contents: the desired name when free; otherwise the first free candidate
among `stem.(1)ext`, `stem.(2)ext`, … up to the bound 999; past the bound
the timestamp fallback; and for a directory holding `report.pdf` and
`report.(1).pdf`, requesting `report.pdf` yields `report.(2).pdf`. -/
theorem unique_filename_first_available (existing : List String)
    (filename : String) (ts : Nat) :
    (filename ∉ existing → unique_filename existing filename ts = filename)
    ∧ (∀ n, filename ∈ existing → 1 ≤ n → n ≤ 999 →
        candidateName (splitAtLastDot filename).1
          (splitAtLastDot filename).2 n ∉ existing →
        (∀ m, 1 ≤ m → m < n →
          candidateName (splitAtLastDot filename).1
            (splitAtLastDot filename).2 m ∈ existing) →
        unique_filename existing filename ts
          = candidateName (splitAtLastDot filename).1
              (splitAtLastDot filename).2 n)
    ∧ (filename ∈ existing →
        (∀ m, 1 ≤ m → m ≤ 999 →
          candidateName (splitAtLastDot filename).1
            (splitAtLastDot filename).2 m ∈ existing) →
        unique_filename existing filename ts
          = timestampName (splitAtLastDot filename).1
              (splitAtLastDot filename).2 ts)
    ∧ unique_filename ["report.pdf", "report.(1).pdf"] "report.pdf" ts
        = "report.(2).pdf" := by
  refine ⟨?_, ?_, ?_, ?_⟩
  · intro h
    simp [unique_filename, h]
  · intro n hmem h1 h2 h3 h4
    simp only [unique_filename]
    rw [if_pos hmem]
    rw [tryCounters_hit existing _ _ 999 1 n h1 (by omega) h3
      (fun m hm1 hm2 => h4 m hm1 hm2)]
  · intro hmem hall
    simp only [unique_filename]
    rw [if_pos hmem]
    rw [tryCounters_exhausted existing _ _ 999 1
      (fun m hm1 hm2 => hall m hm1 (by omega))]
  · rfl

/-- C7 witness: the theorem applied to the `report.pdf` example (second
conjunct at n = 2), to a free name (first conjunct), and to the crowded
directory (third conjunct). -/
theorem unique_filename_first_available_witness :
    unique_filename ["report.pdf", "report.(1).pdf"] "report.pdf" 7
      = candidateName (splitAtLastDot "report.pdf").1
          (splitAtLastDot "report.pdf").2 2 ∧
    unique_filename ["x.bin"] "file.bin" 7 = "file.bin" ∧
    unique_filename crowdedDir "report.pdf" 7
      = timestampName (splitAtLastDot "report.pdf").1
          (splitAtLastDot "report.pdf").2 7 := by
  refine ⟨?_, ?_, ?_⟩
  · exact (unique_filename_first_available
      ["report.pdf", "report.(1).pdf"] "report.pdf" 7).2.1 2 (by decide)
      (by decide) (by decide) (by decide)
      (fun m hm1 hm2 => by
        have hm : m = 1 := by omega
        subst hm
        decide)
  · exact (unique_filename_first_available ["x.bin"] "file.bin" 7).1
      (by decide)
  · refine (unique_filename_first_available crowdedDir "report.pdf" 7).2.2.1
      (by simp [crowdedDir]) (fun m hm1 hm2 => ?_)
    have hsplit : splitAtLastDot "report.pdf" = ("report", some ".pdf") := by
      rfl
    rw [hsplit]
    refine List.mem_cons_of_mem _ ?_
    have hmr : m - 1 ∈ List.range 999 := List.mem_range.mpr (by omega)
    have h := List.mem_map_of_mem
      (fun i => candidateName "report" (some ".pdf") (i + 1)) hmr
    simpa [Nat.sub_add_cancel hm1] using h

/-- C1 counterexample: the claim says a native finished event with
expected 100 and received 50 on a transfer still `InProgress` yields
`Cancelled` (or an equivalent non-success terminal state); on the code the
handler makes no transition at all, so the status stays `InProgress` —
neither `Cancelled` nor terminal. -/
theorem short_finish_counterexample :
    statusOf (connect_finished 1 (some 100) 50
      (mkWorld [mkItem 1 .InProgress 50 100 false])).dm 1
      = some .InProgress ∧
    DownloadStatus.InProgress.isTerminal = false ∧
    DownloadStatus.InProgress ≠ .Cancelled := by
  decide

/-- C1 amended: a short native finish (positive expected total, received
strictly below it) is never promoted to `Completed` — the handler leaves
the whole state untouched, so a transfer cancelled beforehand stays
`Cancelled`; the handler does not itself set `Cancelled`, and a transfer
still `InProgress` stays `InProgress`. -/
theorem short_finish_is_noop (id expected received : Nat) (w : World)
    (h1 : 0 < expected) (h2 : received < expected) :
    connect_finished id (some expected) received w = w := by
  simp [connect_finished, h1, h2]

/-- C1 witness: the amended theorem applied to a transfer already marked
Cancelled by a preceding cancel. -/
theorem short_finish_is_noop_witness :
    0 < 100 ∧ 50 < 100 ∧
    connect_finished 1 (some 100) 50
        (mkWorld [mkItem 1 .Cancelled 50 100 false])
      = mkWorld [mkItem 1 .Cancelled 50 100 false] :=
  ⟨by decide, by decide,
   short_finish_is_noop 1 100 50 (mkWorld [mkItem 1 .Cancelled 50 100 false])
     (by decide) (by decide)⟩

/-- C2: `cancel_download` sets the status to `Cancelled` before invoking
the registered cancel callback, and a backend failed event arriving
afterwards for the same id leaves the final status `Cancelled`, not
`Failed` (the handler sees the transfer as no longer active). -/
theorem cancel_suppresses_failure (w : World) (id : Nat) (err : String)
    (s : DownloadStatus) (h : statusOf w.dm id = some s) :
    statusOf (cancel_download id w).dm id = some .Cancelled ∧
    statusOf (connect_failed id err (cancel_download id w)).dm id
      = some .Cancelled := by
  have h1 : statusOf (cancel_download id w).dm id = some .Cancelled := by
    rw [cancel_download_dm]
    exact statusOf_set_download_status_self id _ w.dm s h
  refine ⟨h1, ?_⟩
  have hact : is_active (cancel_download id w).dm id = false := by
    by_cases hb : is_active (cancel_download id w).dm id = true
    · have hc := (is_active_iff _ _).mp hb
      rw [h1] at hc
      simp at hc
    · simpa using hb
  simp only [connect_failed]
  have hcond : (!(is_paused (cancel_download id w).dm id)
      && is_active (cancel_download id w).dm id) = false := by
    simp [hact]
  rw [hcond]
  simp only [Bool.false_eq_true, if_false]
  exact h1

/-- C2 witness: the theorem applied to a one-transfer world. -/
theorem cancel_suppresses_failure_witness :
    statusOf (cancel_download 1
        (mkWorld [mkItem 1 .InProgress 50 100 false])).dm 1
      = some .Cancelled ∧
    statusOf (connect_failed 1 "network error"
        (cancel_download 1 (mkWorld [mkItem 1 .InProgress 50 100 false]))).dm
        1
      = some .Cancelled :=
  cancel_suppresses_failure (mkWorld [mkItem 1 .InProgress 50 100 false]) 1
    "network error" .InProgress (by decide)

/-- C3 counterexample: the claim says no operation moves a Paused transfer
with `supports_range_resume = false` to `InProgress`; on the code, `resume`
does — `get_download_for_resume` checks only the Paused status, never the
flag (the flag only gates the UI's `can_resume` button). -/
theorem resume_ignores_range_support_counterexample :
    supportsOf wPausedNoRange.dm 1 = some false ∧
    statusOf wPausedNoRange.dm 1 = some .Paused ∧
    statusOf (step (Op.resume 1) wPausedNoRange).dm 1 = some .InProgress := by
  decide

/-- C3 amended: an existing transfer whose status is not `InProgress`
returns to `InProgress` only through `resume`, and resume performs the
transition exactly when the transfer is `Paused` — regardless of
`supports_range_resume`, which only the UI predicate `can_resume`
consults. -/
theorem inprogress_only_via_resume (op : Op) (w : World) (id : Nat)
    (s : DownloadStatus)
    (hnd : (w.dm.downloads.map (fun d => d.id)).Nodup)
    (hs : statusOf w.dm id = some s) (hsni : s ≠ .InProgress)
    (hafter : statusOf (step op w).dm id = some .InProgress) :
    op = Op.resume id ∧ s = .Paused := by
  cases op with
  | add url name dest now =>
      exfalso
      have hpres : statusOf (step (Op.add url name dest now) w).dm id
          = some s := by
        simp only [step, World.registerResumeCb, World.registerCancelCb,
          statusOf, add_download] at hs ⊢
        rw [List.find?_append]
        cases hf : w.dm.downloads.find? (fun d => d.id == id) with
        | none => rw [hf] at hs; simp at hs
        | some d => rw [hf] at hs; simpa using hs
      exact hsni (Option.some.inj (hpres.symm.trans hafter))
  | update i r t =>
      exfalso
      have hpres : statusOf (step (Op.update i r t) w).dm id = some s := by
        simpa [step, World.regUpdateProgress, statusOf_update_progress]
          using hs
      exact hsni (Option.some.inj (hpres.symm.trans hafter))
  | setSupports i b =>
      exfalso
      have hpres : statusOf (step (Op.setSupports i b) w).dm id = some s := by
        simpa [step, World.regSetSupports, statusOf_set_supports_resume]
          using hs
      exact hsni (Option.some.inj (hpres.symm.trans hafter))
  | cancel i =>
      exfalso
      have hdm : statusOf (step (Op.cancel i) w).dm id
          = statusOf (set_download_status i .Cancelled w.dm) id := by
        simp only [step]
        rw [cancel_download_dm]
      by_cases hii : i = id
      · subst hii
        rw [hdm, statusOf_set_download_status_self i .Cancelled w.dm s hs]
          at hafter
        simp at hafter
      · rw [hdm, statusOf_set_download_status_ne i id hii .Cancelled w.dm]
          at hafter
        exact hsni (Option.some.inj (hs.symm.trans hafter))
  | pause i =>
      exfalso
      have hdm : statusOf (step (Op.pause i) w).dm id
          = statusOf (set_download_status i .Paused w.dm) id := by
        simp only [step]
        rw [pause_download_dm]
      by_cases hii : i = id
      · subst hii
        rw [hdm, statusOf_set_download_status_self i .Paused w.dm s hs]
          at hafter
        simp at hafter
      · rw [hdm, statusOf_set_download_status_ne i id hii .Paused w.dm]
          at hafter
        exact hsni (Option.some.inj (hs.symm.trans hafter))
  | resume i =>
      cases hcb : lookupCb w.resumeCbs i with
      | none =>
          exfalso
          simp only [step, resume_download_sync, hcb] at hafter
          exact hsni (Option.some.inj (hs.symm.trans hafter))
      | some cb =>
          cases cb
          cases hget : get_download_for_resume w.dm i with
          | none =>
              exfalso
              simp only [step, resume_download_sync, hcb, hget] at hafter
              exact hsni (Option.some.inj (hs.symm.trans hafter))
          | some triple =>
              obtain ⟨url, dest, rcv⟩ := triple
              simp only [step, resume_download_sync, hcb, hget] at hafter
              rw [resume_sync_dm] at hafter
              by_cases hii : i = id
              · subst hii
                refine ⟨rfl, ?_⟩
                simp only [get_download_for_resume] at hget
                cases hf : w.dm.downloads.find?
                    (fun d => d.id == i && d.is_paused) with
                | none => rw [hf] at hget; simp at hget
                | some d =>
                    have hfind2 :=
                      find?_paused_of_nodup i w.dm.downloads hnd d hf
                    have hstat : statusOf w.dm i = some d.status := by
                      simp [statusOf, hfind2]
                    rw [hs] at hstat
                    have hds : d.status = s := (Option.some.inj hstat).symm
                    have hp := List.find?_some hf
                    have hp2 : d.id = i ∧ d.is_paused = true := by
                      simpa using hp
                    have hpp : d.is_paused = true := hp2.2
                    rw [← hds]
                    cases hq : d.status <;>
                      simp [DownloadItem.is_paused, hq] at hpp ⊢
              · exfalso
                rw [statusOf_set_download_status_ne i id hii .InProgress
                  w.dm] at hafter
                exact hsni (Option.some.inj (hs.symm.trans hafter))
  | resumeBody i url dest start resp =>
      exfalso
      rcases resume_async_dm_cases i url dest start resp w with hc | hc
        | ⟨e, hc⟩
      · have hpres : statusOf (step (Op.resumeBody i url dest start resp)
            w).dm id = some s := by
          simp only [step]
          rw [hc, resume_body_statusOf]
          exact hs
        exact hsni (Option.some.inj (hpres.symm.trans hafter))
      · simp only [step] at hafter
        rw [hc] at hafter
        by_cases hii : i = id
        · subst hii
          have hp : statusOf (resume_body i url dest start resp w).1.dm i
              = some s := by
            rw [resume_body_statusOf]; exact hs
          rw [statusOf_set_download_status_self i .Completed _ s hp]
            at hafter
          simp at hafter
        · rw [statusOf_set_download_status_ne i id hii .Completed _]
            at hafter
          rw [resume_body_statusOf] at hafter
          exact hsni (Option.some.inj (hs.symm.trans hafter))
      · simp only [step] at hafter
        rw [hc] at hafter
        by_cases hii : i = id
        · subst hii
          have hp : statusOf (resume_body i url dest start resp w).1.dm i
              = some s := by
            rw [resume_body_statusOf]; exact hs
          rw [statusOf_set_download_status_self i (.Failed e) _ s hp]
            at hafter
          simp at hafter
        · rw [statusOf_set_download_status_ne i id hii (.Failed e) _]
            at hafter
          rw [resume_body_statusOf] at hafter
          exact hsni (Option.some.inj (hs.symm.trans hafter))
  | finished i resp received =>
      exfalso
      rcases connect_finished_dm_cases i resp received w with hc | hc
      · have hpres : statusOf (step (Op.finished i resp received) w).dm id
            = some s := by
          simp only [step]
          rw [hc]
          exact hs
        exact hsni (Option.some.inj (hpres.symm.trans hafter))
      · simp only [step] at hafter
        rw [hc] at hafter
        by_cases hii : i = id
        · subst hii
          rw [statusOf_set_download_status_self i .Completed w.dm s hs]
            at hafter
          simp at hafter
        · rw [statusOf_set_download_status_ne i id hii .Completed w.dm]
            at hafter
          exact hsni (Option.some.inj (hs.symm.trans hafter))
  | failed i err =>
      exfalso
      rcases connect_failed_dm_cases i err w with hc | hc
      · have hpres : statusOf (step (Op.failed i err) w).dm id = some s := by
          simp only [step]
          rw [hc]
          exact hs
        exact hsni (Option.some.inj (hpres.symm.trans hafter))
      · simp only [step] at hafter
        rw [hc] at hafter
        by_cases hii : i = id
        · subst hii
          rw [statusOf_set_download_status_self i (.Failed err) w.dm s hs]
            at hafter
          simp at hafter
        · rw [statusOf_set_download_status_ne i id hii (.Failed err) w.dm]
            at hafter
          exact hsni (Option.some.inj (hs.symm.trans hafter))
  | clear =>
      exfalso
      obtain ⟨e, he_mem, he_id, he_st⟩ :=
        statusOf_mem (clear_completed w.dm) id .InProgress hafter
      have he_mem2 : e ∈ w.dm.downloads := List.mem_of_mem_filter he_mem
      obtain ⟨d, hd_mem, hd_id, hd_st⟩ := statusOf_mem w.dm id s hs
      have hed : e = d :=
        List.inj_on_of_nodup_map hnd he_mem2 hd_mem (by rw [he_id, hd_id])
      rw [hed, hd_st] at he_st
      exact hsni he_st
  | remove i =>
      exfalso
      obtain ⟨e, he_mem, he_id, he_st⟩ :=
        statusOf_mem (remove_download_dm i w.dm) id .InProgress hafter
      have he2 := List.mem_filter.mp he_mem
      by_cases hii : i = id
      · subst hii
        have : (e.id != i) = true := he2.2
        simp [he_id] at this
      · obtain ⟨d, hd_mem, hd_id, hd_st⟩ := statusOf_mem w.dm id s hs
        have hed : e = d :=
          List.inj_on_of_nodup_map hnd he2.1 hd_mem (by rw [he_id, hd_id])
        rw [hed, hd_st] at he_st
        exact hsni he_st

/-- C3 witness: the amended theorem applied to the paused transfer without
range support, moved to InProgress by resume. -/
theorem inprogress_only_via_resume_witness :
    Op.resume 1 = Op.resume 1 ∧ DownloadStatus.Paused = .Paused :=
  inprogress_only_via_resume (Op.resume 1) wPausedNoRange 1 .Paused
    (by decide) (by decide) (by decide) (by decide)


lemma resume_body_206 (id : Nat) (url dest : String) (start clen : Nat)
    (cs : List (List Nat)) (w : World) (c0 : List Nat)
    (hf : getFile w.files dest = some c0) :
    resume_body id url dest start (some ⟨206, clen, cs, false⟩) w
      = ((streamChunks id dest (start + clen) false cs start
          { w with requests := w.requests ++ [(url, start)] }).1,
         if (streamChunks id dest (start + clen) false cs start
          { w with requests := w.requests ++ [(url, start)] }).2 then none
         else some "Read error") := by
  simp only [resume_body]
  have h1 : (((206 : Nat) != 206) && ((206 : Nat) != 200)) = false := by
    decide
  have h2 : ((206 : Nat) == 206) = true := by decide
  simp only [h1, h2, Bool.false_eq_true, if_false, if_true]
  have hf2 : getFile ({ w with requests := w.requests ++ [(url, start)]
      } : World).files dest = some c0 := hf
  rw [hf2]

lemma resume_body_200 (id : Nat) (url dest : String) (start clen : Nat)
    (cs : List (List Nat)) (w : World) :
    resume_body id url dest start (some ⟨200, clen, cs, false⟩) w
      = ((streamChunks id dest clen false cs 0
          { ({ w with requests := w.requests ++ [(url, start)]
              } : World).regUpdateProgress id 0 clen with
            files := setFile (({ w with requests := w.requests ++ [(url,
              start)] } : World).regUpdateProgress id 0 clen).files dest
              [] }).1,
         if (streamChunks id dest clen false cs 0
          { ({ w with requests := w.requests ++ [(url, start)]
              } : World).regUpdateProgress id 0 clen with
            files := setFile (({ w with requests := w.requests ++ [(url,
              start)] } : World).regUpdateProgress id 0 clen).files dest
              [] }).2 then none
         else some "Read error") := by
  simp only [resume_body]
  have h1 : (((200 : Nat) != 206) && ((200 : Nat) != 200)) = false := by
    decide
  have h2 : ((200 : Nat) == 206) = false := by decide
  simp only [h1, h2, Bool.false_eq_true, if_false]

lemma resume_body_other (id : Nat) (url dest : String) (start : Nat)
    (st clen : Nat) (cs : List (List Nat)) (rerr : Bool) (w : World)
    (h206 : st ≠ 206) (h200 : st ≠ 200) :
    resume_body id url dest start (some ⟨st, clen, cs, rerr⟩) w
      = ({ w with requests := w.requests ++ [(url, start)] },
         some ("Server returned status " ++ toString st)) := by
  simp only [resume_body]
  have h1 : ((st != 206) && (st != 200)) = true := by
    simp [h206, h200]
  simp only [h1, if_true]


lemma resume_206_spec (id : Nat) (url dest : String) (start clen : Nat)
    (cs : List (List Nat)) (w : World) (c0 : List Nat) (s : DownloadStatus)
    (hs : statusOf w.dm id = some s) (htok : id ∉ w.cancelledTokens)
    (hf : getFile w.files dest = some c0) :
    getFile (resume_download_with_range id url dest start
        (some ⟨206, clen, cs, false⟩) w).files dest
      = some (c0 ++ cs.flatten) ∧
    statusOf (resume_download_with_range id url dest start
        (some ⟨206, clen, cs, false⟩) w).dm id = some .Completed ∧
    (resume_download_with_range id url dest start
        (some ⟨206, clen, cs, false⟩) w).log
      = w.log ++ RegEvent.statusSet id .InProgress ::
          (progressTrace id (start + clen) start cs
            ++ [RegEvent.statusSet id .Completed]) ∧
    (resume_download_with_range id url dest start
        (some ⟨206, clen, cs, false⟩) w).requests
      = w.requests ++ [(url, start)] := by
  have hfe : fileExists w.files dest = true := by
    simp [fileExists, hf]
  have hcond : (fileExists w.files (withPartExtension dest)
      && !fileExists w.files dest) = false := by simp [hfe]
  have hsync : resume_sync id dest w
      = (w.registerCancelCb id (CancelCb.soup dest)).regSetStatus id
          DownloadStatus.InProgress := by
    simp only [resume_sync, hcond, Bool.false_eq_true, if_false]
  set w1 : World := (w.registerCancelCb id
    (CancelCb.soup dest)).regSetStatus id DownloadStatus.InProgress with hw1
  set w2 : World := { w1 with requests := w1.requests ++ [(url, start)] }
    with hw2
  have hs1 : statusOf w1.dm id = some DownloadStatus.InProgress :=
    statusOf_set_download_status_self id DownloadStatus.InProgress w.dm s hs
  have htok2 : id ∉ w2.cancelledTokens := htok
  have hf2 : getFile w2.files dest = some c0 := hf
  have hf1 : getFile w1.files dest = some c0 := hf
  have hsnd := streamChunks_snd id dest (start + clen) cs start w2 htok2
  have hlog := streamChunks_log id dest (start + clen) false cs start w2
    htok2
  have hfl := streamChunks_files id dest (start + clen) false cs start w2
    c0 htok2 hf2
  have hreq := streamChunks_requests id dest (start + clen) false cs start
    w2
  have hbody := resume_body_206 id url dest start clen cs w1 c0 hf1
  rw [← hw2] at hbody
  rw [hsnd] at hbody
  simp only [if_true] at hbody
  have hstat1 : statusOf (streamChunks id dest (start + clen) false cs
      start w2).1.dm id = some DownloadStatus.InProgress := by
    rw [streamChunks_statusOf]
    exact hs1
  have hpaused : is_paused (streamChunks id dest (start + clen) false cs
      start w2).1.dm id = false := by
    by_cases hb : is_paused (streamChunks id dest (start + clen) false cs
        start w2).1.dm id = true
    · have hc := (is_paused_iff _ _).mp hb
      rw [hstat1] at hc
      simp at hc
    · simpa using hb
  have hactive : is_active (streamChunks id dest (start + clen) false cs
      start w2).1.dm id = true := (is_active_iff _ _).mpr hstat1
  unfold resume_download_with_range
  rw [hsync]
  simp only [resume_async]
  rw [hbody]
  have hcond2 : (!(is_paused (streamChunks id dest (start + clen) false cs
      start w2).1.dm id) && is_active (streamChunks id dest (start + clen)
      false cs start w2).1.dm id) = true := by
    simp [hpaused, hactive]
  simp only [hcond2, if_true]
  refine ⟨hfl, ?_, ?_, ?_⟩
  · exact statusOf_set_download_status_self id DownloadStatus.Completed
      (streamChunks id dest (start + clen) false cs start w2).1.dm
      DownloadStatus.InProgress hstat1
  · show (streamChunks id dest (start + clen) false cs start w2).1.log
      ++ [RegEvent.statusSet id DownloadStatus.Completed] = _
    rw [hlog]
    have hw2log : w2.log
        = w.log ++ [RegEvent.statusSet id DownloadStatus.InProgress] := rfl
    rw [hw2log]
    simp
  · show (streamChunks id dest (start + clen) false cs start w2).1.requests
      = _
    rw [hreq]
    rfl


lemma resume_200_spec (id : Nat) (url dest : String) (start clen : Nat)
    (cs : List (List Nat)) (w : World) (c0 : List Nat) (s : DownloadStatus)
    (hs : statusOf w.dm id = some s) (htok : id ∉ w.cancelledTokens)
    (hf : getFile w.files dest = some c0) :
    getFile (resume_download_with_range id url dest start
        (some ⟨200, clen, cs, false⟩) w).files dest = some cs.flatten ∧
    statusOf (resume_download_with_range id url dest start
        (some ⟨200, clen, cs, false⟩) w).dm id = some .Completed ∧
    (resume_download_with_range id url dest start
        (some ⟨200, clen, cs, false⟩) w).log
      = w.log ++ RegEvent.statusSet id .InProgress ::
          RegEvent.progress id 0 clen ::
          (progressTrace id clen 0 cs
            ++ [RegEvent.statusSet id .Completed]) ∧
    (resume_download_with_range id url dest start
        (some ⟨200, clen, cs, false⟩) w).requests
      = w.requests ++ [(url, start)] := by
  have hfe : fileExists w.files dest = true := by
    simp [fileExists, hf]
  have hcond : (fileExists w.files (withPartExtension dest)
      && !fileExists w.files dest) = false := by simp [hfe]
  have hsync : resume_sync id dest w
      = (w.registerCancelCb id (CancelCb.soup dest)).regSetStatus id
          DownloadStatus.InProgress := by
    simp only [resume_sync, hcond, Bool.false_eq_true, if_false]
  set w1 : World := (w.registerCancelCb id
    (CancelCb.soup dest)).regSetStatus id DownloadStatus.InProgress with hw1
  set w2 : World := { w1 with requests := w1.requests ++ [(url, start)] }
    with hw2
  set w3 : World := w2.regUpdateProgress id 0 clen with hw3
  set w4 : World := { w3 with files := setFile w3.files dest [] } with hw4
  have hs1 : statusOf w1.dm id = some DownloadStatus.InProgress :=
    statusOf_set_download_status_self id DownloadStatus.InProgress w.dm s hs
  have hs4 : statusOf w4.dm id = some DownloadStatus.InProgress := by
    show statusOf (update_progress id 0 clen w2.dm) id = _
    rw [statusOf_update_progress]
    exact hs1
  have htok4 : id ∉ w4.cancelledTokens := htok
  have hf4 : getFile w4.files dest = some [] :=
    getFile_setFile_self w3.files dest []
  have hsnd := streamChunks_snd id dest clen cs 0 w4 htok4
  have hlog := streamChunks_log id dest clen false cs 0 w4 htok4
  have hfl := streamChunks_files id dest clen false cs 0 w4 [] htok4 hf4
  have hreq := streamChunks_requests id dest clen false cs 0 w4
  have hbody := resume_body_200 id url dest start clen cs w1
  rw [← hw2, ← hw3, ← hw4] at hbody
  rw [hsnd] at hbody
  simp only [if_true] at hbody
  have hstat1 : statusOf (streamChunks id dest clen false cs 0 w4).1.dm id
      = some DownloadStatus.InProgress := by
    rw [streamChunks_statusOf]
    exact hs4
  have hpaused : is_paused (streamChunks id dest clen false cs 0 w4).1.dm
      id = false := by
    by_cases hb : is_paused (streamChunks id dest clen false cs 0 w4).1.dm
        id = true
    · have hc := (is_paused_iff _ _).mp hb
      rw [hstat1] at hc
      simp at hc
    · simpa using hb
  have hactive : is_active (streamChunks id dest clen false cs 0 w4).1.dm
      id = true := (is_active_iff _ _).mpr hstat1
  unfold resume_download_with_range
  rw [hsync]
  simp only [resume_async]
  rw [hbody]
  have hcond2 : (!(is_paused (streamChunks id dest clen false cs 0
      w4).1.dm id) && is_active (streamChunks id dest clen false cs 0
      w4).1.dm id) = true := by
    simp [hpaused, hactive]
  simp only [hcond2, if_true]
  refine ⟨?_, ?_, ?_, ?_⟩
  · show getFile (streamChunks id dest clen false cs 0 w4).1.files dest = _
    rw [hfl]
    simp
  · exact statusOf_set_download_status_self id DownloadStatus.Completed
      (streamChunks id dest clen false cs 0 w4).1.dm
      DownloadStatus.InProgress hstat1
  · show (streamChunks id dest clen false cs 0 w4).1.log
      ++ [RegEvent.statusSet id DownloadStatus.Completed] = _
    rw [hlog]
    have hw4log : w4.log = (w.log
        ++ [RegEvent.statusSet id DownloadStatus.InProgress])
        ++ [RegEvent.progress id 0 clen] := rfl
    rw [hw4log]
    simp
  · show (streamChunks id dest clen false cs 0 w4).1.requests = _
    rw [hreq]
    rfl

lemma resume_other_spec (id : Nat) (url dest : String) (start : Nat)
    (st clen : Nat) (cs : List (List Nat)) (rerr : Bool) (w : World)
    (s : DownloadStatus) (hs : statusOf w.dm id = some s)
    (h206 : st ≠ 206) (h200 : st ≠ 200) :
    statusOf (resume_download_with_range id url dest start
        (some ⟨st, clen, cs, rerr⟩) w).dm id
      = some (.Failed ("Server returned status " ++ toString st)) := by
  have hsS : statusOf (resume_sync id dest w).dm id
      = some DownloadStatus.InProgress := by
    rw [resume_sync_dm]
    exact statusOf_set_download_status_self id DownloadStatus.InProgress
      w.dm s hs
  unfold resume_download_with_range
  simp only [resume_async]
  rw [resume_body_other id url dest start st clen cs rerr
    (resume_sync id dest w) h206 h200]
  have hstat1 : statusOf ({ resume_sync id dest w with
      requests := (resume_sync id dest w).requests ++ [(url, start)]
    } : World).dm id = some DownloadStatus.InProgress := hsS
  have hpaused : is_paused ({ resume_sync id dest w with
      requests := (resume_sync id dest w).requests ++ [(url, start)]
    } : World).dm id = false := by
    by_cases hb : is_paused ({ resume_sync id dest w with
        requests := (resume_sync id dest w).requests ++ [(url, start)]
      } : World).dm id = true
    · have hc := (is_paused_iff _ _).mp hb
      rw [hstat1] at hc
      simp at hc
    · simpa using hb
  have hactive : is_active ({ resume_sync id dest w with
      requests := (resume_sync id dest w).requests ++ [(url, start)]
    } : World).dm id = true := (is_active_iff _ _).mpr hstat1
  have hcond2 : (!(is_paused ({ resume_sync id dest w with
      requests := (resume_sync id dest w).requests ++ [(url, start)]
    } : World).dm id) && is_active ({ resume_sync id dest w with
      requests := (resume_sync id dest w).requests ++ [(url, start)]
    } : World).dm id) = true := by
    simp [hpaused, hactive]
  simp only [hcond2, if_true]
  exact statusOf_set_download_status_self id _ _ DownloadStatus.InProgress
    hstat1

/-- C5: interpretation of the range-resume response, from any world whose
destination file holds `c0` bytes, whose transfer is present and whose
soup token is not cancelled.  A 206 response of content length `clen`
yields the total `start + clen` in every progress report, appends the body
to the existing file content, continues the received counter from `start`
(first report `start + |chunk1|`) and completes.  A 200 response yields
the total `clen`, reports progress `(0, clen)` before any chunk is
streamed, truncates and rewrites the destination from byte 0, and
completes.  Any other response status marks the transfer `Failed`.  The
issued request always carries `Range: bytes=<start>-`. -/
theorem resume_response_interpretation (id : Nat) (url dest : String)
    (start clen : Nat) (cs : List (List Nat)) (w : World) (c0 : List Nat)
    (s : DownloadStatus)
    (hs : statusOf w.dm id = some s) (htok : id ∉ w.cancelledTokens)
    (hf : getFile w.files dest = some c0) :
    (getFile (resume_download_with_range id url dest start
        (some ⟨206, clen, cs, false⟩) w).files dest
        = some (c0 ++ cs.flatten) ∧
     statusOf (resume_download_with_range id url dest start
        (some ⟨206, clen, cs, false⟩) w).dm id = some .Completed ∧
     (resume_download_with_range id url dest start
        (some ⟨206, clen, cs, false⟩) w).log
        = w.log ++ RegEvent.statusSet id .InProgress ::
            (progressTrace id (start + clen) start cs
              ++ [RegEvent.statusSet id .Completed]) ∧
     (resume_download_with_range id url dest start
        (some ⟨206, clen, cs, false⟩) w).requests
        = w.requests ++ [(url, start)]) ∧
    (getFile (resume_download_with_range id url dest start
        (some ⟨200, clen, cs, false⟩) w).files dest = some cs.flatten ∧
     statusOf (resume_download_with_range id url dest start
        (some ⟨200, clen, cs, false⟩) w).dm id = some .Completed ∧
     (resume_download_with_range id url dest start
        (some ⟨200, clen, cs, false⟩) w).log
        = w.log ++ RegEvent.statusSet id .InProgress ::
            RegEvent.progress id 0 clen ::
            (progressTrace id clen 0 cs
              ++ [RegEvent.statusSet id .Completed]) ∧
     (resume_download_with_range id url dest start
        (some ⟨200, clen, cs, false⟩) w).requests
        = w.requests ++ [(url, start)]) ∧
    (∀ st, st ≠ 206 → st ≠ 200 → ∀ rerr,
      statusOf (resume_download_with_range id url dest start
          (some ⟨st, clen, cs, rerr⟩) w).dm id
        = some (.Failed ("Server returned status " ++ toString st))) :=
  ⟨resume_206_spec id url dest start clen cs w c0 s hs htok hf,
   resume_200_spec id url dest start clen cs w c0 s hs htok hf,
   fun st h1 h2 rerr =>
     resume_other_spec id url dest start st clen cs rerr w s hs h1 h2⟩

/-- C5 witness: the theorem applied to a concrete paused transfer, a
two-chunk 206 body, a three-report 200 body and a 404 status. -/
theorem resume_response_interpretation_witness :
    (getFile (resume_download_with_range 1 "http://x/file.bin"
        "/tmp/file.bin" 2 (some ⟨206, 2, [[7], [8]], false⟩)
        wResume).files "/tmp/file.bin" = some [9, 9, 7, 8] ∧
     statusOf (resume_download_with_range 1 "http://x/file.bin"
        "/tmp/file.bin" 2 (some ⟨206, 2, [[7], [8]], false⟩)
        wResume).dm 1 = some .Completed ∧
     (resume_download_with_range 1 "http://x/file.bin" "/tmp/file.bin" 2
        (some ⟨206, 2, [[7], [8]], false⟩) wResume).log
        = [RegEvent.statusSet 1 .InProgress, RegEvent.progress 1 3 4,
           RegEvent.progress 1 4 4, RegEvent.statusSet 1 .Completed] ∧
     (resume_download_with_range 1 "http://x/file.bin" "/tmp/file.bin" 2
        (some ⟨206, 2, [[7], [8]], false⟩) wResume).requests
        = [("http://x/file.bin", 2)]) ∧
    (getFile (resume_download_with_range 1 "http://x/file.bin"
        "/tmp/file.bin" 2 (some ⟨200, 2, [[7], [8]], false⟩)
        wResume).files "/tmp/file.bin" = some [7, 8] ∧
     statusOf (resume_download_with_range 1 "http://x/file.bin"
        "/tmp/file.bin" 2 (some ⟨200, 2, [[7], [8]], false⟩)
        wResume).dm 1 = some .Completed ∧
     (resume_download_with_range 1 "http://x/file.bin" "/tmp/file.bin" 2
        (some ⟨200, 2, [[7], [8]], false⟩) wResume).log
        = [RegEvent.statusSet 1 .InProgress, RegEvent.progress 1 0 2,
           RegEvent.progress 1 1 2, RegEvent.progress 1 2 2,
           RegEvent.statusSet 1 .Completed] ∧
     (resume_download_with_range 1 "http://x/file.bin" "/tmp/file.bin" 2
        (some ⟨200, 2, [[7], [8]], false⟩) wResume).requests
        = [("http://x/file.bin", 2)]) ∧
    statusOf (resume_download_with_range 1 "http://x/file.bin"
        "/tmp/file.bin" 2 (some ⟨404, 2, [[7], [8]], false⟩)
        wResume).dm 1 = some (.Failed "Server returned status 404") := by
  have h := resume_response_interpretation 1 "http://x/file.bin"
    "/tmp/file.bin" 2 2 [[7], [8]] wResume [9, 9] .Paused (by decide)
    (by decide) (by decide)
  exact ⟨h.1, h.2.1, h.2.2 404 (by decide) (by decide) false⟩
